import Mathlib

/-!
Verification of the tile-coverage / inventory core of the gips data utility
(`gippy/data/core.py`) through a shallow embedding.

Python dictionaries are embedded as association lists `List (String × α)`
with insertion-order semantics (`dinsert` models `d[k] = v`, `dlookup`
models `d[k]`, missing keys — Python `KeyError` — become `Option.none`).
Fallible code returns `Option`/`Except`. Geometry objects are abstracted
to exactly the quantities the code reads from them: for `vector2tiles`
each grid feature carries its id attribute value and the area of its
intersection with the (transformed) region geometry, and the region
carries its total area.
-/

namespace Gips

/-- Python dict lookup `m[k]` on an association list; `none` models `KeyError`. -/
def dlookup {α : Type} (m : List (String × α)) (k : String) : Option α :=
  match m with
  | [] => none
  | (k0, v) :: rest => if k0 = k then some v else dlookup rest k

/-- Python dict assignment `m[k] = v`: replace the value at an existing key in
place, else append the new pair (insertion-order semantics). -/
def dinsert {α : Type} (m : List (String × α)) (k : String) (v : α) : List (String × α) :=
  match m with
  | [] => [(k, v)]
  | (k0, v0) :: rest => if k0 = k then (k0, v) :: rest else (k0, v0) :: dinsert rest k v

/-- The keys of an association list, in insertion order. -/
def keys {α : Type} (m : List (String × α)) : List String :=
  m.map Prod.fst

/-- Apply a fallible function to every element; the whole computation fails as
soon as one element fails (models a Python loop in which each step may raise). -/
def mapOption {α β : Type} (f : α → Option β) : List α → Option (List β)
  | [] => some []
  | a :: as =>
    match f a, mapOption f as with
    | some b, some bs => some (b :: bs)
    | _, _ => none

/-- A calendar date as the code manipulates it: directory names are parsed with
format `%Y%j`, i.e. a year and a 1-based day of year. Comparison of Python
`datetime.date` values coincides with lexicographic order on `(year, doy)`. -/
structure Date where
  year : Nat
  doy : Nat
deriving DecidableEq, Repr

/-- Calendar order on dates in the `(year, day-of-year)` representation. -/
def Date.le (a b : Date) : Prop :=
  a.year < b.year ∨ (a.year = b.year ∧ a.doy ≤ b.doy)

instance : LE Date := ⟨Date.le⟩

instance Date.decLe (a b : Date) : Decidable (a ≤ b) :=
  if h : a.year < b.year ∨ (a.year = b.year ∧ a.doy ≤ b.doy) then .isTrue h else .isFalse h

instance : IsTotal Date (· ≤ ·) where
  total a b := by
    show (a.year < b.year ∨ (a.year = b.year ∧ a.doy ≤ b.doy)) ∨
      (b.year < a.year ∨ (b.year = a.year ∧ b.doy ≤ a.doy))
    omega

instance : IsTrans Date (· ≤ ·) where
  trans a b c hab hbc := by
    have h1 : a.year < b.year ∨ (a.year = b.year ∧ a.doy ≤ b.doy) := hab
    have h2 : b.year < c.year ∨ (b.year = c.year ∧ b.doy ≤ c.doy) := hbc
    show a.year < c.year ∨ (a.year = c.year ∧ a.doy ≤ c.doy)
    omega

instance : DecidableRel (α := Date) (· ≤ ·) := Date.decLe

/-- One feature of the tile-grid layer as `vector2tiles` reads it: the value of
the configured id attribute (`str(feat.GetField(fldindex))`) and the area of
the intersection of its geometry with the transformed region geometry
(`geom.intersection(tgeom).area`). The geometry itself is abstracted to the
intersection area, which is all the loop consumes. -/
structure Feat where
  fieldVal : String
  interArea : ℚ
deriving DecidableEq, Repr

/-- The tile-id normalization inside the `vector2tiles` loop:
`if len(tile) == 5: tile = '0' + tile`. -/
def padTile (s : String) : String :=
  if s.length = 5 then "0" ++ s else s

/-- The accumulation loop of `Data.vector2tiles`:
for each feature, `if area != 0: tiles[tile] = area/geom.area`. -/
def vector2tilesLoop (regionArea : ℚ) (feats : List Feat) (tiles : List (String × ℚ)) :
    List (String × ℚ) :=
  match feats with
  | [] => tiles
  | f :: fs =>
    vector2tilesLoop regionArea fs
      (if f.interArea ≠ 0 then dinsert tiles (padTile f.fieldVal) (f.interArea / regionArea)
       else tiles)

/-- `Data.vector2tiles`, with the feature iteration of the (spatially filtered)
tile layer given as the list `feats` and `geom.area` as `regionArea`. The
source reads `feat.GetFieldIndex` off the first feature before the loop, so
when the filtered layer yields no feature at all, `GetNextFeature` returns
`None` and the attribute access raises — modelled by `none`. -/
def vector2tiles (regionArea : ℚ) (feats : List Feat) : Option (List (String × ℚ)) :=
  match feats with
  | [] => none
  | _ :: _ => some (vector2tilesLoop regionArea feats [])

/-- A per-product filename mapping, `tiles[t]['products']`. -/
abbrev ProdMap := List (String × String)

/-- A per-tile record, the dict stored at `self.tiles[t]`; `__init__` leaves it
empty (`{}`), discovery is expected to add a `"products"` entry. -/
abbrev TileRec := List (String × ProdMap)

/-- The state of a `Data` object (one sensor dataset for one date). -/
structure Data where
  site : Option String
  tile_coverage : List (String × ℚ)
  tiles : List (String × TileRec)
  date : Option Date
  products : List (String × String)
deriving DecidableEq, Repr

/-- The error raised by `Data.__init__` when a site is given without tiles:
the method refers to the undefined name `cls` (`cls.vector2tiles(...)` inside
an instance method), a `NameError`. -/
inductive InitError
  | nameErrorCls
deriving DecidableEq, Repr

/-- Python `dict((t,1) for t in ts)`. -/
def pyDictOfKeys (ts : List String) : List (String × ℚ) :=
  ts.foldl (fun m t => dinsert m t 1) []

/-- Shallow embedding of `Data.__init__`. `listing` stands for
`os.listdir(self.path())` in the no-site/no-tiles branch. After computing the
coverage dict, the constructor rebinds `self.tiles` to a dict mapping every
coverage key to an empty record and sets `self.products = {}`. With a site and
no tiles it evaluates `cls.vector2tiles`, where `cls` is undefined: `NameError`,
raised before any coverage computation. -/
def Data.init (site : Option String) (tiles : Option (List String))
    (listing : List String) (date : Option Date) : Except InitError Data :=
  match tiles with
  | some ts =>
    let cov := pyDictOfKeys ts
    Except.ok
      { site := site, tile_coverage := cov,
        tiles := (keys cov).map (fun t => (t, ([] : TileRec))),
        date := date, products := [] }
  | none =>
    match site with
    | some _ => Except.error InitError.nameErrorCls
    | none =>
      let cov := pyDictOfKeys listing
      Except.ok
        { site := none, tile_coverage := cov,
          tiles := (keys cov).map (fun t => (t, ([] : TileRec))),
          date := date, products := [] }

/-- `Data.filename(product, tile)`: with a tile,
`self.tiles[tile]['products'][product]`; without a tile the source returns
`self.products['product']` — the literal key `'product'`, not the parameter. -/
def Data.filename (d : Data) (product : String) (tile : Option String) : Option String :=
  match tile with
  | some t =>
    (dlookup d.tiles t).bind fun tr =>
      (dlookup tr "products").bind fun pm => dlookup pm product
  | none => dlookup d.products "product"

/-- `Data.get_products`: extends an accumulator with
`self.tiles[t]['products'].keys()` for every tile, then `sorted(set(...))`.
The subscript raises `KeyError` (here `none`) on any tile record without a
`"products"` entry. -/
def Data.get_products (d : Data) : Option (List String) :=
  (mapOption (fun tr => dlookup tr.2 "products") d.tiles).map
    (fun pms => List.insertionSort (· ≤ ·) ((pms.map keys).flatten.dedup))

/-- Decimal value of a nonempty all-digit character sequence, the semantics of
Python `int` on such input; anything else fails (`ValueError`). -/
def digitsVal (cs : List Char) : Option Nat :=
  if cs ≠ [] ∧ cs.all Char.isDigit = true then
    some (cs.foldl (fun n c => n * 10 + (c.toNat - 48)) 0)
  else none

/-- Python `int(s)` restricted to its canonical inputs: an optional minus sign
followed by decimal digits (surrounding whitespace, a plus sign and underscore
separators, which Python also tolerates, are not modelled). -/
def pyInt (s : String) : Option Int :=
  match s.toList with
  | '-' :: cs => (digitsVal cs).map (fun n => -(n : Int))
  | cs => (digitsVal cs).map (fun n => (n : Int))

/-- Python `str.split(sep)` for a one-character separator, on character lists:
splitting the empty string yields one empty field. -/
def pySplitChars (sep : Char) : List Char → List (List Char)
  | [] => [[]]
  | c :: cs =>
    if c = sep then [] :: pySplitChars sep cs
    else
      match pySplitChars sep cs with
      | [] => [[c]]
      | h :: t => (c :: h) :: t

/-- Python `s.split(sep)` for a one-character separator. -/
def pySplit (sep : Char) (s : String) : List String :=
  (pySplitChars sep s.toList).map (fun cs => String.mk cs)

/-- `datetime.datetime.strptime(name, '%Y%j').date()` for the canonical
7-character `YYYYDDD` directory names fixed by the data model (4-digit year,
3-digit zero-padded day of year); other shapes fail. The per-year leap-day
validation of `strptime` is abstracted to the day-of-year bound `1..366`. -/
def strptime_Yj (s : String) : Option Date :=
  match s.toList with
  | [y1, y2, y3, y4, d1, d2, d3] =>
    match digitsVal [y1, y2, y3, y4], digitsVal [d1, d2, d3] with
    | some y, some j => if 1 ≤ j ∧ j ≤ 366 then some ⟨y, j⟩ else none
    | _, _ => none
  | _ => none

/-- `Data.find_dates(tile)` applied to the directory listing of the tile's
directory: parse every entry; a single unparseable name raises. -/
def find_dates (listing : List String) : Option (List Date) :=
  mapOption strptime_Yj listing

/-- The temporal filter of `DataInventory.AddData`:
`(start_date <= date <= end_date) and (start_day <= day <= end_day)` with
`day = int(date.strftime('%j'))`. -/
def dateIncluded (sd ed : Date) (sday eday : Int) (d : Date) : Prop :=
  (sd ≤ d ∧ d ≤ ed) ∧ (sday ≤ (d.doy : Int) ∧ (d.doy : Int) ≤ eday)

instance (sd ed : Date) (sday eday : Int) (d : Date) :
    Decidable (dateIncluded sd ed sday eday d) :=
  inferInstanceAs (Decidable ((_ ∧ _) ∧ (_ ∧ _)))

/-- The inner date-collection loop of `AddData` over one tile's dates:
`if in range: if date not in dates: dates.append(date)`. -/
def collectDatesAux (sd ed : Date) (sday eday : Int) (acc : List Date) :
    List Date → List Date
  | [] => acc
  | d :: ds =>
    collectDatesAux sd ed sday eday
      (if dateIncluded sd ed sday eday d then (if d ∈ acc then acc else acc ++ [d]) else acc) ds

/-- The date keys of `self.data` after `DataInventory.AddData`: collect the
in-range dates of every tile (deduplicated, in first-seen order), then insert
into the dict in `sorted(dates)` order. `listings` maps a tile id to the
directory listing `os.listdir` returns for it; any unparseable entry raises. -/
def AddData_dates (tiles : List String) (listings : String → List String)
    (sd ed : Date) (sday eday : Int) : Option (List Date) :=
  (mapOption (fun t => find_dates (listings t)) tiles).map
    (fun dss => List.insertionSort (· ≤ ·) (dss.foldl (collectDatesAux sd ed sday eday) []))

/-- The `DataInventory.dates` property: `[k for k in sorted(self.data)]`. -/
def inventory_dates (tiles : List String) (listings : String → List String)
    (sd ed : Date) (sday eday : Int) : Option (List Date) :=
  (AddData_dates tiles listings sd ed sday eday).map (List.insertionSort (· ≤ ·))

/-- The day-of-year half of `DataInventory.temporal_extent`: `None` or the
empty string default to `(1, 366)`; otherwise the string is split on `','` and
fields 0 and 1 are converted with `int` — with no further validation. Fewer
than two fields (`IndexError`) or a non-integer field (`ValueError`) raise,
modelled by `none`. -/
def temporal_extent_days (days : Option String) : Option (Int × Int) :=
  match days with
  | none => some (1, 366)
  | some s =>
    if s = "" then some (1, 366)
    else
      match (pySplit ',' s)[0]?.bind pyInt, (pySplit ',' s)[1]?.bind pyInt with
      | some x, some y => some (x, y)
      | _, _ => none

/-- `DataInventory.process`: for every date of the inventory and every sensor
recorded for that date, unconditionally delegate to the per-dataset `process`
(the external Processor); the `# TODO only process if don't exist` branch is
unimplemented, so neither `products` nor `overwrite` influences the iteration.
The result counts the delegated calls, which is what a stub Processor's
call-count assertion observes. -/
def DataInventory.processCalls (data : List (Date × List (String × Data)))
    (products : List String) (overwrite : Bool) : Nat :=
  data.foldl (fun n dd => n + dd.2.length) 0

/-- A dataset state with one tile whose product discovery has run (tile
`001234` has a `toaref` file) and a populated mosaic product mapping; used to
evaluate `Data.filename`. -/
def mosaicSample : Data :=
  { site := none, tile_coverage := [("001234", 1)],
    tiles := [("001234", [("products", [("toaref", "001234_toaref.tif")])])],
    date := none, products := [("toaref", "mosaic_toaref.tif")] }

/-- A dataset state for date 2020-001 whose only tile already has its `toaref`
product file. -/
def processSampleData : Data :=
  { site := none, tile_coverage := [("001234", 1)],
    tiles := [("001234", [("products", [("toaref", "001234_toaref.tif")])])],
    date := some ⟨2020, 1⟩, products := [] }

/-- The `self.data` mapping of an inventory holding `processSampleData` under
one date and one sensor. -/
def processSampleInv : List (Date × List (String × Data)) :=
  [(⟨2020, 1⟩, [("LT5", processSampleData)])]

/-! ### Helper lemmas -/

@[simp] lemma keys_nil {α : Type} : keys ([] : List (String × α)) = [] := rfl

@[simp] lemma keys_cons {α : Type} (p : String × α) (m : List (String × α)) :
    keys (p :: m) = p.1 :: keys m := rfl

@[simp] lemma keys_append {α : Type} (a b : List (String × α)) :
    keys (a ++ b) = keys a ++ keys b := by
  simp [keys]

@[simp] lemma keys_map {α : Type} {β : Type} (f : β → String × α) (l : List β) :
    keys (l.map f) = l.map (fun b => (f b).1) := by
  simp [keys, Function.comp]

lemma dinsert_of_not_mem {α : Type} (m : List (String × α)) (k : String) (v : α)
    (h : k ∉ keys m) : dinsert m k v = m ++ [(k, v)] := by
  induction m with
  | nil => rfl
  | cons p rest ih =>
    obtain ⟨k0, v0⟩ := p
    simp only [keys_cons, List.mem_cons] at h
    push_neg at h
    rw [dinsert, if_neg (fun hk => h.1 hk.symm), ih h.2, List.cons_append]

lemma length_zero_append (s : String) : ("0" ++ s).length = s.length + 1 := by
  cases s with
  | mk data => rfl

lemma vector2tilesLoop_eq (regionArea : ℚ) (feats : List Feat) (acc : List (String × ℚ))
    (hids : (feats.map (fun f => padTile f.fieldVal)).Nodup)
    (hdisj : ∀ f ∈ feats, padTile f.fieldVal ∉ keys acc) :
    vector2tilesLoop regionArea feats acc =
      acc ++ (feats.filter (fun f => decide (f.interArea ≠ 0))).map
        (fun f => (padTile f.fieldVal, f.interArea / regionArea)) := by
  induction feats generalizing acc with
  | nil => simp [vector2tilesLoop]
  | cons f fs ih =>
    simp only [List.map_cons, List.nodup_cons] at hids
    obtain ⟨hf_notin, hids'⟩ := hids
    by_cases hf : f.interArea ≠ 0
    · rw [vector2tilesLoop, if_pos hf,
        dinsert_of_not_mem _ _ _ (hdisj f (List.mem_cons_self f fs))]
      rw [ih _ hids' ?_]
      · rw [List.filter_cons_of_pos (by simpa using hf), List.map_cons, List.append_assoc,
          List.singleton_append]
      · intro g hg
        rw [keys_append]
        simp only [List.mem_append, keys_cons, keys_nil, List.mem_singleton]
        push_neg
        refine ⟨hdisj g (List.mem_cons_of_mem f hg), fun he => hf_notin ?_⟩
        rw [← he]
        exact List.mem_map_of_mem _ hg
    · rw [vector2tilesLoop, if_neg hf, List.filter_cons_of_neg (by simpa using hf)]
      exact ih _ hids' (fun g hg => hdisj g (List.mem_cons_of_mem f hg))

lemma vector2tiles_eq (regionArea : ℚ) (feats : List Feat) (m : List (String × ℚ))
    (hids : (feats.map (fun f => padTile f.fieldVal)).Nodup)
    (hm : vector2tiles regionArea feats = some m) :
    m = (feats.filter (fun f => decide (f.interArea ≠ 0))).map
      (fun f => (padTile f.fieldVal, f.interArea / regionArea)) := by
  cases feats with
  | nil => simp [vector2tiles] at hm
  | cons f fs =>
    rw [vector2tiles] at hm
    have hm' := Option.some.inj hm
    rw [← hm', vector2tilesLoop_eq regionArea (f :: fs) [] hids (by simp)]
    simp

lemma mem_vector2tiles (regionArea : ℚ) (feats : List Feat) (m : List (String × ℚ))
    (hids : (feats.map (fun f => padTile f.fieldVal)).Nodup)
    (hm : vector2tiles regionArea feats = some m)
    (f : Feat) (hf : f ∈ feats) (ha : f.interArea ≠ 0) :
    (padTile f.fieldVal, f.interArea / regionArea) ∈ m := by
  rw [vector2tiles_eq regionArea feats m hids hm]
  exact List.mem_map_of_mem _ (List.mem_filter.mpr ⟨hf, by simpa using ha⟩)

lemma Date.le_trans {a b c : Date} (h1 : a ≤ b) (h2 : b ≤ c) : a ≤ c := by
  have p1 : a.year < b.year ∨ (a.year = b.year ∧ a.doy ≤ b.doy) := h1
  have p2 : b.year < c.year ∨ (b.year = c.year ∧ b.doy ≤ c.doy) := h2
  show a.year < c.year ∨ (a.year = c.year ∧ a.doy ≤ c.doy)
  omega

lemma mem_collectDatesAux (sd ed : Date) (sday eday : Int) (ds : List Date)
    (acc : List Date) (d : Date) :
    d ∈ collectDatesAux sd ed sday eday acc ds ↔
      d ∈ acc ∨ (d ∈ ds ∧ dateIncluded sd ed sday eday d) := by
  induction ds generalizing acc with
  | nil => simp [collectDatesAux]
  | cons x xs ih =>
    rw [collectDatesAux, ih]
    by_cases hx : dateIncluded sd ed sday eday x
    · rw [if_pos hx]
      by_cases hmem : x ∈ acc
      · rw [if_pos hmem]
        constructor
        · rintro (h | ⟨h1, h2⟩)
          · exact Or.inl h
          · exact Or.inr ⟨List.mem_cons_of_mem x h1, h2⟩
        · rintro (h | ⟨h1, h2⟩)
          · exact Or.inl h
          · rcases List.mem_cons.mp h1 with h1 | h1
            · exact Or.inl (h1 ▸ hmem)
            · exact Or.inr ⟨h1, h2⟩
      · rw [if_neg hmem]
        simp only [List.mem_append, List.mem_singleton, List.mem_cons, List.not_mem_nil,
          or_false]
        constructor
        · rintro ((h | h) | ⟨h1, h2⟩)
          · exact Or.inl h
          · exact Or.inr ⟨Or.inl h, h ▸ hx⟩
          · exact Or.inr ⟨Or.inr h1, h2⟩
        · rintro (h | ⟨h1 | h1, h2⟩)
          · exact Or.inl (Or.inl h)
          · exact Or.inl (Or.inr h1)
          · exact Or.inr ⟨h1, h2⟩
    · rw [if_neg hx]
      constructor
      · rintro (h | ⟨h1, h2⟩)
        · exact Or.inl h
        · exact Or.inr ⟨List.mem_cons_of_mem x h1, h2⟩
      · rintro (h | ⟨h1, h2⟩)
        · exact Or.inl h
        · rcases List.mem_cons.mp h1 with h1 | h1
          · exact absurd (h1 ▸ h2) hx
          · exact Or.inr ⟨h1, h2⟩

lemma nodup_collectDatesAux (sd ed : Date) (sday eday : Int) (ds : List Date)
    (acc : List Date) (h : acc.Nodup) :
    (collectDatesAux sd ed sday eday acc ds).Nodup := by
  induction ds generalizing acc with
  | nil => simpa [collectDatesAux]
  | cons x xs ih =>
    rw [collectDatesAux]
    apply ih
    by_cases hx : dateIncluded sd ed sday eday x
    · rw [if_pos hx]
      by_cases hmem : x ∈ acc
      · rwa [if_pos hmem]
      · rw [if_neg hmem]
        simp [List.nodup_append, h, hmem]
    · rwa [if_neg hx]

lemma mem_foldl_collect (sd ed : Date) (sday eday : Int) (dss : List (List Date))
    (acc : List Date) (d : Date) :
    d ∈ dss.foldl (collectDatesAux sd ed sday eday) acc ↔
      d ∈ acc ∨ ((∃ l ∈ dss, d ∈ l) ∧ dateIncluded sd ed sday eday d) := by
  induction dss generalizing acc with
  | nil => simp
  | cons l ls ih =>
    rw [List.foldl_cons, ih, mem_collectDatesAux]
    constructor
    · rintro ((h | ⟨h1, h2⟩) | ⟨⟨l', hl', hd⟩, h2⟩)
      · exact Or.inl h
      · exact Or.inr ⟨⟨l, List.mem_cons_self l ls, h1⟩, h2⟩
      · exact Or.inr ⟨⟨l', List.mem_cons_of_mem l hl', hd⟩, h2⟩
    · rintro (h | ⟨⟨l', hl', hd⟩, h2⟩)
      · exact Or.inl (Or.inl h)
      · rcases List.mem_cons.mp hl' with h1 | h1
        · exact Or.inl (Or.inr ⟨h1 ▸ hd, h2⟩)
        · exact Or.inr ⟨⟨l', h1, hd⟩, h2⟩

lemma nodup_foldl_collect (sd ed : Date) (sday eday : Int) (dss : List (List Date))
    (acc : List Date) (h : acc.Nodup) :
    (dss.foldl (collectDatesAux sd ed sday eday) acc).Nodup := by
  induction dss generalizing acc with
  | nil => simpa
  | cons l ls ih => exact ih _ (nodup_collectDatesAux sd ed sday eday l acc h)

lemma mapOption_mem_some {α β : Type} (f : α → Option β) (l : List α) (bs : List β)
    (h : mapOption f l = some bs) (a : α) (ha : a ∈ l) : ∃ b, f a = some b ∧ b ∈ bs := by
  induction l generalizing bs with
  | nil => cases ha
  | cons x xs ih =>
    rw [mapOption] at h
    cases hx : f x with
    | none => rw [hx] at h; exact absurd h (by simp)
    | some b =>
      cases hxs : mapOption f xs with
      | none => rw [hx, hxs] at h; exact absurd h (by simp)
      | some bs' =>
        rw [hx, hxs] at h
        have hbs : bs = b :: bs' := (Option.some.inj h).symm
        rcases List.mem_cons.mp ha with h1 | h1
        · exact ⟨b, h1 ▸ hx, hbs ▸ List.mem_cons_self b bs'⟩
        · obtain ⟨b', hb'1, hb'2⟩ := ih bs' hxs h1
          exact ⟨b', hb'1, hbs ▸ List.mem_cons_of_mem b hb'2⟩

lemma mem_of_mapOption {α β : Type} (f : α → Option β) (l : List α) (bs : List β)
    (h : mapOption f l = some bs) (b : β) (hb : b ∈ bs) : ∃ a ∈ l, f a = some b := by
  induction l generalizing bs with
  | nil =>
    rw [mapOption] at h
    rw [← Option.some.inj h] at hb
    cases hb
  | cons x xs ih =>
    rw [mapOption] at h
    cases hx : f x with
    | none => rw [hx] at h; exact absurd h (by simp)
    | some b' =>
      cases hxs : mapOption f xs with
      | none => rw [hx, hxs] at h; exact absurd h (by simp)
      | some bs' =>
        rw [hx, hxs] at h
        have hbs : bs = b' :: bs' := (Option.some.inj h).symm
        subst hbs
        rcases List.mem_cons.mp hb with h1 | h1
        · exact ⟨x, List.mem_cons_self x xs, h1 ▸ hx⟩
        · obtain ⟨a, ha1, ha2⟩ := ih bs' hxs h1
          exact ⟨a, List.mem_cons_of_mem x ha1, ha2⟩

lemma inventory_dates_cases (tiles : List String) (listings : String → List String)
    (sd ed : Date) (sday eday : Int) (ds : List Date)
    (h : inventory_dates tiles listings sd ed sday eday = some ds) :
    ∃ dss, mapOption (fun t => find_dates (listings t)) tiles = some dss ∧
      ds = List.insertionSort (· ≤ ·)
        (List.insertionSort (· ≤ ·) (dss.foldl (collectDatesAux sd ed sday eday) [])) := by
  unfold inventory_dates AddData_dates at h
  cases hms : mapOption (fun t => find_dates (listings t)) tiles with
  | none => rw [hms] at h; exact absurd h (by simp)
  | some dss =>
    rw [hms] at h
    simp only [Option.map_some'] at h
    exact ⟨dss, rfl, (Option.some.inj h).symm⟩

lemma mem_inventory_dates (tiles : List String) (listings : String → List String)
    (sd ed : Date) (sday eday : Int) (ds : List Date)
    (h : inventory_dates tiles listings sd ed sday eday = some ds) (d : Date) :
    d ∈ ds ↔
      ((∃ t ∈ tiles, ∃ n ∈ listings t, strptime_Yj n = some d) ∧
        dateIncluded sd ed sday eday d) := by
  obtain ⟨dss, hms, hds⟩ := inventory_dates_cases tiles listings sd ed sday eday ds h
  subst hds
  rw [List.mem_insertionSort, List.mem_insertionSort, mem_foldl_collect]
  simp only [List.not_mem_nil, false_or]
  constructor
  · rintro ⟨⟨l, hl, hdl⟩, hinc⟩
    obtain ⟨t, ht, hft⟩ := mem_of_mapOption _ _ _ hms l hl
    obtain ⟨n, hn, hparse⟩ := mem_of_mapOption _ _ _ hft d hdl
    exact ⟨⟨t, ht, n, hn, hparse⟩, hinc⟩
  · rintro ⟨⟨t, ht, n, hn, hparse⟩, hinc⟩
    obtain ⟨l, hfl, hl⟩ := mapOption_mem_some _ _ _ hms t ht
    obtain ⟨b, hb1, hb2⟩ := mapOption_mem_some _ _ _ hfl n hn
    rw [hparse] at hb1
    exact ⟨⟨l, hl, (Option.some.inj hb1) ▸ hb2⟩, hinc⟩

lemma sorted_nodup_inventory_dates (tiles : List String) (listings : String → List String)
    (sd ed : Date) (sday eday : Int) (ds : List Date)
    (h : inventory_dates tiles listings sd ed sday eday = some ds) :
    List.Sorted (· ≤ ·) ds ∧ ds.Nodup := by
  obtain ⟨dss, _, hds⟩ := inventory_dates_cases tiles listings sd ed sday eday ds h
  subst hds
  refine ⟨List.sorted_insertionSort _ _, ?_⟩
  have hraw : (dss.foldl (collectDatesAux sd ed sday eday) []).Nodup :=
    nodup_foldl_collect sd ed sday eday dss [] List.nodup_nil
  have p1 := List.perm_insertionSort (α := Date) (· ≤ ·)
    (List.insertionSort (· ≤ ·) (dss.foldl (collectDatesAux sd ed sday eday) []))
  have p2 := List.perm_insertionSort (α := Date) (· ≤ ·)
    (dss.foldl (collectDatesAux sd ed sday eday) [])
  exact ((p1.trans p2).symm).nodup hraw

/-! ### Claim theorems -/

/-- C1: for a non-degenerate region (positive area) and a grid whose features
have nonnegative intersection areas and pairwise distinct (padded) ids, every
entry of the coverage map returned by `vector2tiles` comes from a feature with
intersection area strictly greater than zero and carries weight
`interArea / regionArea`; every feature with positive intersection area is in
the map; and a feature whose intersection area is zero contributes no key. -/
theorem vector2tiles_coverage (regionArea : ℚ) (feats : List Feat) (m : List (String × ℚ))
    (hreg : 0 < regionArea)
    (hnn : ∀ f ∈ feats, 0 ≤ f.interArea)
    (hids : (feats.map (fun f => padTile f.fieldVal)).Nodup)
    (hm : vector2tiles regionArea feats = some m) :
    (∀ p ∈ m, ∃ f ∈ feats, p.1 = padTile f.fieldVal ∧ 0 < f.interArea ∧
      p.2 = f.interArea / regionArea) ∧
    (∀ f ∈ feats, 0 < f.interArea →
      (padTile f.fieldVal, f.interArea / regionArea) ∈ m) ∧
    (∀ f ∈ feats, f.interArea = 0 → padTile f.fieldVal ∉ keys m) := by
  have heq := vector2tiles_eq regionArea feats m hids hm
  refine ⟨?_, ?_, ?_⟩
  · intro p hp
    rw [heq] at hp
    obtain ⟨f, hf, hfp⟩ := List.mem_map.mp hp
    have hf' := List.mem_filter.mp hf
    have hne : f.interArea ≠ 0 := by simpa using hf'.2
    exact ⟨f, hf'.1, by rw [← hfp], lt_of_le_of_ne (hnn f hf'.1) (Ne.symm hne),
      by rw [← hfp]⟩
  · intro f hf hpos
    exact mem_vector2tiles regionArea feats m hids hm f hf (ne_of_gt hpos)
  · intro f hf hzero hkey
    rw [heq, keys_map] at hkey
    obtain ⟨g, hg, hgf⟩ := List.mem_map.mp hkey
    have hg' := List.mem_filter.mp hg
    have hgf' : padTile g.fieldVal = padTile f.fieldVal := hgf
    have : g = f := List.inj_on_of_nodup_map hids hg'.1 hf hgf'
    have hne : g.interArea ≠ 0 := by simpa using hg'.2
    exact hne (this ▸ hzero)

/-- C1 witness: a region of area 2 with one fully interior feature (area 1)
and one zero-area tangency; the interior tile appears with weight 1/2 and the
tangent tile's id is absent. -/
theorem vector2tiles_coverage_witness :
    (padTile "012345", (1 : ℚ) / 2) ∈ [("012345", (1 : ℚ) / 2)] ∧
    padTile "999999" ∉ keys [("012345", (1 : ℚ) / 2)] := by
  have h := vector2tiles_coverage 2 [⟨"012345", 1⟩, ⟨"999999", 0⟩]
    [("012345", (1 : ℚ) / 2)] (by norm_num) (by decide) (by decide) rfl
  exact ⟨h.2.1 ⟨"012345", 1⟩ (by decide) (by norm_num),
    h.2.2 ⟨"999999", 0⟩ (by decide) rfl⟩

/-- C2: for every inventory whose construction succeeds, the `dates` property
is ascending-sorted, deduplicated, and contains exactly the dates parsed from
a date-directory name of at least one resolved tile that satisfy both the
date-range bounds and the (non-wrapping) day-of-year bounds. -/
theorem inventory_dates_spec (tiles : List String) (listings : String → List String)
    (sd ed : Date) (sday eday : Int) (ds : List Date)
    (h : inventory_dates tiles listings sd ed sday eday = some ds) :
    List.Sorted (· ≤ ·) ds ∧ ds.Nodup ∧
    (∀ d : Date, d ∈ ds ↔
      ((∃ t ∈ tiles, ∃ n ∈ listings t, strptime_Yj n = some d) ∧
        (sd ≤ d ∧ d ≤ ed) ∧ (sday ≤ (d.doy : Int) ∧ (d.doy : Int) ≤ eday))) := by
  obtain ⟨hs, hn⟩ := sorted_nodup_inventory_dates tiles listings sd ed sday eday ds h
  exact ⟨hs, hn, fun d => mem_inventory_dates tiles listings sd ed sday eday ds h d⟩

/-- C2 witness: one tile with one date directory `2020045`, date range
2020-001..2020-100, day range 1..90; the date (2020, 45) is in the inventory. -/
theorem inventory_dates_spec_witness :
    Date.mk 2020 45 ∈ [Date.mk 2020 45] := by
  have h := inventory_dates_spec ["A"] (fun _ => ["2020045"]) ⟨2020, 1⟩ ⟨2020, 100⟩ 1 90
    [⟨2020, 45⟩] rfl
  exact (h.2.2 ⟨2020, 45⟩).mpr
    ⟨⟨"A", by decide, "2020045", by decide, rfl⟩, ⟨by decide, by decide⟩,
      ⟨by decide, by decide⟩⟩

/-- C3: evaluation of `Data.filename` at a dataset whose tile `001234` and
mosaic mapping both hold a `toaref` product. The per-tile lookup succeeds,
but the mosaic lookup `filename("toaref")` fails (`KeyError`) although
`"toaref"` is present in `self.products`, because the source reads the
literal key `'product'` instead of the `product` parameter. -/
theorem filename_mosaic_literal_key :
    Data.filename mosaicSample "toaref" (some "001234") = some "001234_toaref.tif" ∧
    dlookup mosaicSample.products "toaref" = some "mosaic_toaref.tif" ∧
    Data.filename mosaicSample "toaref" none = none :=
  ⟨rfl, rfl, rfl⟩

/-- C4 counterexample: the day-range string `"367,3"` has both bounds outside
what the claim allows (367 > 366 and start 367 > end 3), yet
`temporal_extent` accepts it without any error. -/
theorem temporal_extent_days_counterexample :
    temporal_extent_days (some "367,3") = some (367, 3) ∧
    ¬((1 : Int) ≤ 367 ∧ (367 : Int) ≤ 366) ∧ ¬((367 : Int) ≤ 3) :=
  ⟨rfl, by decide, by decide⟩

/-- C4 amended: an absent day-range string defaults to (1, 366); a non-empty
string is split on commas and its first two fields are converted with `int`
and returned with no range or order validation — any two integer fields are
accepted, including bounds outside [1, 366] and start > end. -/
theorem temporal_extent_days_amended :
    temporal_extent_days none = some (1, 366) ∧
    (∀ (s : String) (x y : Int), s ≠ "" →
      (pySplit ',' s)[0]?.bind pyInt = some x →
      (pySplit ',' s)[1]?.bind pyInt = some y →
      temporal_extent_days (some s) = some (x, y)) := by
  refine ⟨rfl, ?_⟩
  intro s x y hs h0 h1
  simp only [temporal_extent_days]
  rw [if_neg hs, h0, h1]

/-- C4 amended witness: `"400,500"` parses to bounds (400, 500) although both
are outside [1, 366]. -/
theorem temporal_extent_days_amended_witness :
    temporal_extent_days (some "400,500") = some (400, 500) :=
  temporal_extent_days_amended.2 "400,500" 400 500 (by decide) rfl rfl

/-- C5: an inventory with one date and one sensor whose only tile already has
its `toaref` product file; `process(["toaref"], overwrite=False)` still
delegates once to the external Processor (call count 1, not 0): the
existing-product skip is unimplemented (`TODO only process if don't exist`). -/
theorem process_calls_ignore_existing :
    Data.filename processSampleData "toaref" (some "001234") = some "001234_toaref.tif" ∧
    DataInventory.processCalls processSampleInv ["toaref"] false = 1 :=
  ⟨rfl, rfl⟩

/-- C6: when the region intersects no tile, the spatially filtered tile layer
yields no feature, and `vector2tiles` raises (`GetNextFeature` returns `None`
and the field-index fetch dereferences it) instead of returning an empty
coverage map. -/
theorem vector2tiles_empty_region_raises :
    vector2tiles 1 ([] : List Feat) = none :=
  rfl

/-- C7: immediately after construction with one explicit tile, `get_products`
raises (`KeyError: 'products'`, modelled as `none`) instead of returning an
empty list, because `__init__` initializes each tile record to an empty dict. -/
theorem get_products_after_init_raises :
    Except.map Data.get_products (Data.init none (some ["001234"]) [] none) =
      Except.ok none :=
  rfl

/-- C8 counterexample: a feature whose id attribute is the 4-character string
`"1234"` is stored under the key `"1234"` itself — not zero-padded to the
canonical width 6 — since the source pads only ids of length exactly 5. -/
theorem padTile_counterexample :
    vector2tiles 2 [⟨"1234", (1 : ℚ)⟩] = some [("1234", (1 : ℚ) / 2)] ∧
    ("1234" : String).length ≠ 6 :=
  ⟨rfl, by decide⟩

/-- C8 amended: among features with non-zero intersection area, exactly those
whose id has length 5 are padded with one leading zero (reaching the canonical
width 6) before being used as a key of the coverage map; ids of any other
length are used unchanged. -/
theorem vector2tiles_padding (regionArea : ℚ) (feats : List Feat) (m : List (String × ℚ))
    (hids : (feats.map (fun f => padTile f.fieldVal)).Nodup)
    (hm : vector2tiles regionArea feats = some m)
    (f : Feat) (hf : f ∈ feats) (ha : f.interArea ≠ 0) :
    (f.fieldVal.length = 5 →
      ("0" ++ f.fieldVal, f.interArea / regionArea) ∈ m ∧ ("0" ++ f.fieldVal).length = 6) ∧
    (f.fieldVal.length ≠ 5 → (f.fieldVal, f.interArea / regionArea) ∈ m) := by
  have hmem := mem_vector2tiles regionArea feats m hids hm f hf ha
  constructor
  · intro h5
    constructor
    · rw [padTile, if_pos h5] at hmem
      exact hmem
    · rw [length_zero_append, h5]
  · intro h5
    rw [padTile, if_neg h5] at hmem
    exact hmem

/-- C8 amended witness: the length-5 id `"12345"` is stored as `"012345"`
(width 6) with weight 1/2 in a region of area 2. -/
theorem vector2tiles_padding_witness :
    ("0" ++ "12345", (1 : ℚ) / 2) ∈ [("012345", (1 : ℚ) / 2)] ∧
    ("0" ++ "12345").length = 6 := by
  have h := vector2tiles_padding 2 [⟨"12345", 1⟩] [("012345", (1 : ℚ) / 2)]
    (by decide) rfl ⟨"12345", 1⟩ (by decide) (by norm_num)
  exact h.1 (by decide)

/-- C9: the inventory date filter is monotonic — a date included under given
date-range and day-range bounds remains included under any widened bounds. -/
theorem inventory_dates_monotone (tiles : List String) (listings : String → List String)
    (sd ed sd' ed' : Date) (sday eday sday' eday' : Int) (ds ds' : List Date) (d : Date)
    (h : inventory_dates tiles listings sd ed sday eday = some ds)
    (h' : inventory_dates tiles listings sd' ed' sday' eday' = some ds')
    (hsd : sd' ≤ sd) (hed : ed ≤ ed') (hsday : sday' ≤ sday) (heday : eday ≤ eday')
    (hd : d ∈ ds) : d ∈ ds' := by
  obtain ⟨hsrc, hinc⟩ := (mem_inventory_dates tiles listings sd ed sday eday ds h d).mp hd
  obtain ⟨⟨h1, h2⟩, h3, h4⟩ := hinc
  refine (mem_inventory_dates tiles listings sd' ed' sday' eday' ds' h' d).mpr
    ⟨hsrc, ⟨Date.le_trans hsd h1, Date.le_trans h2 hed⟩, le_trans hsday h3, le_trans h4 heday⟩

/-- C9 witness: date (2021, 46) is in the inventory under bounds
2021-001..2021-100 / days 1..90 and stays in it under the widened bounds
2019-001..2022-001 / days 1..200. -/
theorem inventory_dates_monotone_witness :
    Date.mk 2021 46 ∈ [Date.mk 2021 46] :=
  inventory_dates_monotone ["B"] (fun _ => ["2021046"]) ⟨2021, 1⟩ ⟨2021, 100⟩ ⟨2019, 1⟩
    ⟨2022, 1⟩ 1 90 1 200 [⟨2021, 46⟩] [⟨2021, 46⟩] ⟨2021, 46⟩ rfl rfl (by decide) (by decide)
    (by decide) (by decide) (by decide)

/-- C10: constructing a `Data` object from a site alone (no explicit tiles)
always fails with the `NameError` on the undefined name `cls`, before any tile
coverage is computed; it never succeeds. -/
theorem init_site_without_tiles_raises (s : String) (listing : List String)
    (date : Option Date) :
    Data.init (some s) none listing date = Except.error InitError.nameErrorCls :=
  rfl

end Gips
